import Mathlib

/-!
Verification of the thresholding pipeline in `src/threshold.py`
(Advanced-Lane-Lines): five classifier functions (`abs_threshold`,
`mag_threshold`, `dir_threshold`, `hls_threshold`, `combined_threshold`)
are embedded shallowly.  Scalar fields use exact integer/rational/real
arithmetic (the Python code works on uint8 images and float64 fields;
on these inputs the float64 computations of interest are exact, and the
boundary properties verified here are stated on the exact values).
NumPy divide-by-zero (NaN-producing, undefined after a uint8 cast) is
modelled as an explicit error value.
-/

namespace LaneLines

/-- A decoded image: height, width, channel count, and pixel accessor
`pix y x c` with BGR channel order and 8-bit values. -/
structure Image where
  height : ℕ
  width : ℕ
  channels : ℕ
  pix : ℕ → ℕ → ℕ → ℕ

/-- A binary mask with explicit spatial dimensions and per-pixel values,
as produced by `np.zeros_like` plus an indexed assignment of `1`. -/
structure BinMask where
  height : ℕ
  width : ℕ
  val : ℕ → ℕ → ℕ

/-- Failure modes of the pipeline: `invalidInput` for a wrong channel
count (the spec contract of the external `cv2.cvtColor` collaborator),
`divideByZero` for the unguarded rescale `x / np.max(x)` on a field whose
maximum is zero (NaN-propagating, undefined in the reference), and
`unboundLocal` for the Python `UnboundLocalError` raised in
`abs_threshold` when `orient` is neither of the two recognised values. -/
inductive ThreshErr where
  | invalidInput
  | divideByZero
  | unboundLocal
deriving DecidableEq

/-- Model of `cv2.cvtColor(img, COLOR_BGR2GRAY)` on one pixel: OpenCV's
fixed-point luma `(4899 R + 9617 G + 1868 B + 8192) >> 14` on 8-bit input. -/
def graySt (img : Image) (y x : ℕ) : ℕ :=
  (4899 * img.pix y x 2 + 9617 * img.pix y x 1 + 1868 * img.pix y x 0 + 8192) / 16384

/-- Coefficient-wise sum of two integer polynomials (coefficient lists). -/
def addPoly : List ℤ → List ℤ → List ℤ
  | [], l => l
  | l, [] => l
  | a :: as, b :: bs => (a + b) :: addPoly as bs

/-- Product of two integer polynomials given as coefficient lists. -/
def convPoly : List ℤ → List ℤ → List ℤ
  | [], _ => []
  | c :: t, b => addPoly (b.map (fun q => c * q)) (0 :: convPoly t b)

/-- Coefficients of `(1 + x) ^ n` (binomial smoothing row). -/
def binomPow : ℕ → List ℤ
  | 0 => [1]
  | n + 1 => convPoly [1, 1] (binomPow n)

/-- OpenCV `getDerivKernels` smoothing kernel for aperture `k`:
coefficients of `(1 + x) ^ (k - 1)`; for k = 3 this is `[1, 2, 1]`. -/
def sobelSmooth (k : ℕ) : List ℤ := binomPow (k - 1)

/-- OpenCV `getDerivKernels` first-derivative kernel for aperture `k`:
coefficients of `(1 + x) ^ (k - 2) * (x - 1)`; for k = 3 this is
`[-1, 0, 1]`. -/
def sobelDeriv (k : ℕ) : List ℤ := convPoly (binomPow (k - 2)) [-1, 1]

/-- `BORDER_REFLECT_101` index mapping (the `cv2.Sobel` default border),
clamped into `[0, n-1]`; exact for the one-step reflections produced by
the apertures and image sizes exercised here. -/
def reflect101 (n : ℕ) (i : ℤ) : ℕ :=
  (min (max (if i < 0 then -i else if (n : ℤ) ≤ i then 2 * ((n : ℤ) - 1) - i else i) 0)
    ((n : ℤ) - 1)).toNat

/-- Model of `cv2.Sobel(gray, CV_64F, dx, dy, ksize=k)` (`dx,dy` being
`1,0` for `axisX = true` and `0,1` otherwise): separable correlation with
the derivative kernel along the requested axis and the smoothing kernel
along the other, `BORDER_REFLECT_101` edge handling.  On uint8 input the
float64 result is an exact integer, so the output is `ℤ`-valued. -/
def sobel (g : ℕ → ℕ → ℕ) (hgt wdt k : ℕ) (axisX : Bool) (y x : ℕ) : ℤ :=
  let rowK := if axisX then sobelSmooth k else sobelDeriv k
  let colK := if axisX then sobelDeriv k else sobelSmooth k
  let c : ℤ := (k / 2 : ℕ)
  ((List.range k).map (fun j =>
    ((List.range k).map (fun i =>
      rowK.getD j 0 * colK.getD i 0 *
        (g (reflect101 hgt ((y : ℤ) + (j : ℤ) - c)) (reflect101 wdt ((x : ℤ) + (i : ℤ) - c)) : ℤ))).sum)).sum

/-- Sobel derivative of the grayscale image along x. -/
def sobelX (img : Image) (k y x : ℕ) : ℤ :=
  sobel (graySt img) img.height img.width k true y x

/-- Sobel derivative of the grayscale image along y. -/
def sobelY (img : Image) (k y x : ℕ) : ℤ :=
  sobel (graySt img) img.height img.width k false y x

/-- All pixel coordinates of an `hgt × wdt` grid, row major. -/
def coordList (hgt wdt : ℕ) : List (ℕ × ℕ) :=
  (List.range hgt).flatMap (fun y => (List.range wdt).map (fun x => (y, x)))

/-- `np.max` over a 2-D field: fold of `max` over all grid values.  The
fields it is applied to are nonnegative, so seeding the fold with `0`
agrees with NumPy's maximum on every nonempty grid. -/
def fieldMax {α : Type} [LinearOrder α] (z : α) (hgt wdt : ℕ) (f : ℕ → ℕ → α) : α :=
  ((coordList hgt wdt).map (fun p => f p.1 p.2)).foldr max z

/-- `np.absolute(cv2.Sobel(gray, CV_64F, 1, 0))` (or `0, 1`):
`abs_threshold` uses the default aperture 3. -/
def absField (img : Image) (axisX : Bool) (y x : ℕ) : ℤ :=
  |(if axisX then sobelX img 3 y x else sobelY img 3 y x)|

/-- `np.max(abs_sobel)` over the image grid. -/
def absFieldMax (img : Image) (axisX : Bool) : ℤ :=
  fieldMax 0 img.height img.width (absField img axisX)

/-- `scaled_sobel = np.uint8(255 * abs_sobel / np.max(abs_sobel))`: the
quotient is nonnegative and on the grid lies in `[0, 255]`, so the uint8
cast truncates it to its floor, i.e. to the integer division
`(255 * abs_sobel) / max`. -/
def absScaled (img : Image) (axisX : Bool) (y x : ℕ) : ℕ :=
  ((255 * absField img axisX y x) / absFieldMax img axisX).toNat

/-- The mask built by `abs_threshold`: 1 where
`thresh[0] <= scaled_sobel <= thresh[1]` (both comparisons inclusive). -/
def absMaskFn (img : Image) (axisX : Bool) (t : ℕ × ℕ) : BinMask :=
  ⟨img.height, img.width, fun y x =>
    if t.1 ≤ absScaled img axisX y x ∧ absScaled img axisX y x ≤ t.2 then 1 else 0⟩

/-- `abs_threshold(img, orient, thresh)` from `src/threshold.py`:
grayscale, Sobel along `orient`, absolute value, rescale by the global
maximum, inclusive-inclusive threshold.  The 3-channel requirement is the
spec contract of the external `cv2.cvtColor` collaborator; an `orient`
other than x or y leaves `abs_sobel` unassigned (`UnboundLocalError`);
a zero field maximum makes the rescale divide by zero. -/
def abs_threshold (img : Image) (orient : String) (thresh : ℕ × ℕ) :
    Except ThreshErr BinMask :=
  if img.channels ≠ 3 then .error .invalidInput
  else if orient = "x" ∨ orient = "y" then
    (if absFieldMax img (orient == "x") = 0 then .error .divideByZero
     else .ok (absMaskFn img (orient == "x") thresh))
  else .error .unboundLocal

/-- `gradmag = np.sqrt(sobelx**2 + sobely**2)` with aperture `k`. -/
noncomputable def gradmag (img : Image) (k y x : ℕ) : ℝ :=
  Real.sqrt (((sobelX img k y x : ℤ) : ℝ) ^ 2 + ((sobelY img k y x : ℤ) : ℝ) ^ 2)

/-- `np.max(gradmag)` over the image grid. -/
noncomputable def gradmagMax (img : Image) (k : ℕ) : ℝ :=
  fieldMax 0 img.height img.width (gradmag img k)

/-- `(gradmag / scale_factor).astype(np.uint8)` with
`scale_factor = np.max(gradmag) / 255`: on the grid the quotient lies in
`[0, 255]`, so the uint8 cast truncates a nonnegative value (floor). -/
noncomputable def magScaled (img : Image) (k y x : ℕ) : ℕ :=
  (⌊gradmag img k y x / (gradmagMax img k / 255)⌋).toNat

/-- The mask built by `mag_threshold`: 1 where
`mag_thresh[0] <= gradmag <= mag_thresh[1]` (both comparisons inclusive)
on the rescaled magnitude. -/
noncomputable def magMaskFn (img : Image) (k : ℕ) (t : ℕ × ℕ) : BinMask :=
  ⟨img.height, img.width, fun y x =>
    if t.1 ≤ magScaled img k y x ∧ magScaled img k y x ≤ t.2 then 1 else 0⟩

open Classical in
/-- `mag_threshold(img, sobel_kernel, mag_thresh)` from `src/threshold.py`:
grayscale, Sobel x and y, Euclidean magnitude, rescale by
`np.max(gradmag) / 255`, inclusive-inclusive threshold.  A zero field
maximum makes `scale_factor` zero and the rescale divide by zero. -/
noncomputable def mag_threshold (img : Image) (sobel_kernel : ℕ) (mag_thresh : ℕ × ℕ) :
    Except ThreshErr BinMask :=
  if img.channels ≠ 3 then .error .invalidInput
  else if gradmagMax img sobel_kernel = 0 then .error .divideByZero
  else .ok (magMaskFn img sobel_kernel mag_thresh)

open Classical in
/-- `np.arctan2 b a` on the nonnegative arguments produced by
`dir_threshold` (`np.arctan2(0, 0) = 0`). -/
noncomputable def atan2nn (b a : ℝ) : ℝ :=
  if a = 0 then (if b = 0 then 0 else Real.pi / 2) else Real.arctan (b / a)

/-- `absgraddir = np.arctan2(np.absolute(sobely), np.absolute(sobelx))`. -/
noncomputable def angleAt (img : Image) (k y x : ℕ) : ℝ :=
  atan2nn |((sobelY img k y x : ℤ) : ℝ)| |((sobelX img k y x : ℤ) : ℝ)|

open Classical in
/-- The mask built by `dir_threshold`: 1 where
`thresh[0] <= absgraddir <= thresh[1]` (both comparisons inclusive),
directly on the radian-valued angle field. -/
noncomputable def dirMaskFn (img : Image) (k : ℕ) (t : ℝ × ℝ) : BinMask :=
  ⟨img.height, img.width, fun y x =>
    if t.1 ≤ angleAt img k y x ∧ angleAt img k y x ≤ t.2 then 1 else 0⟩

/-- `dir_threshold(img, sobel_kernel, thresh)` from `src/threshold.py`:
grayscale, Sobel x and y, gradient direction `arctan2(|sy|, |sx|)`,
inclusive-inclusive threshold; no rescaling and no division. -/
noncomputable def dir_threshold (img : Image) (sobel_kernel : ℕ) (thresh : ℝ × ℝ) :
    Except ThreshErr BinMask :=
  if img.channels ≠ 3 then .error .invalidInput
  else .ok (dirMaskFn img sobel_kernel thresh)

/-- Model of the saturation channel `cv2.cvtColor(img, COLOR_BGR2HLS)[:, :, 2]`
on one 8-bit pixel: `S = 0` when `max = min`, otherwise
`255 (max - min) / (max + min)` when `max + min <= 255` and
`255 (max - min) / (510 - (max + min))` otherwise, rounded to nearest
(the round-half-up of the exact ratio, written in integer arithmetic:
`round (p / q) = (2 p + q) / (2 q)` for nonnegative `p`, `q`). -/
def sChannelAt (img : Image) (y x : ℕ) : ℕ :=
  let b := img.pix y x 0
  let g := img.pix y x 1
  let r := img.pix y x 2
  let mx := max b (max g r)
  let mn := min b (min g r)
  if mx = mn then 0
  else if mx + mn ≤ 255 then
    (2 * (255 * (mx - mn)) + (mx + mn)) / (2 * (mx + mn))
  else
    (2 * (255 * (mx - mn)) + (510 - (mx + mn))) / (2 * (510 - (mx + mn)))

/-- The mask built by `hls_threshold`: 1 where
`s_channel > thresh[0]` (strict) and `s_channel <= thresh[1]` (inclusive). -/
def hlsMaskFn (img : Image) (t : ℕ × ℕ) : BinMask :=
  ⟨img.height, img.width, fun y x =>
    if t.1 < sChannelAt img y x ∧ sChannelAt img y x ≤ t.2 then 1 else 0⟩

/-- `hls_threshold(img, thresh)` from `src/threshold.py`: convert to HLS,
take the S channel, threshold with an exclusive lower and inclusive upper
bound. -/
def hls_threshold (img : Image) (thresh : ℕ × ℕ) : Except ThreshErr BinMask :=
  if img.channels ≠ 3 then .error .invalidInput
  else .ok (hlsMaskFn img thresh)

/-- Per-pixel value of the combination expression of `combined_threshold`
with Python's actual operator precedence (`|` and `&` bind tighter than
`==`), acting on mask values `a m d h`:
`((a == (1 | ((m == 1) & (d == 1)))) | h) == 1`, where a NumPy boolean
counts as `1`/`0` under `|`. -/
def combinePix (a m d h : ℕ) : ℕ :=
  let inner : ℕ := Nat.lor 1 (if m = 1 ∧ d = 1 then 1 else 0)
  let idx : ℕ := Nat.lor (if a = inner then 1 else 0) h
  if idx = 1 then 1 else 0

/-- `combined_output = np.zeros_like(hls_thresh)` plus the indexed
assignment of 1 where the combination expression holds. -/
def combineMasks (a m d h : BinMask) : BinMask :=
  ⟨h.height, h.width, fun y x =>
    combinePix (a.val y x) (m.val y x) (d.val y x) (h.val y x)⟩

/-- `combined_threshold(img)` from `src/threshold.py`: the four
classifiers at the hard-coded call-site arguments, then the combined mask,
returned together with the four individual masks. -/
noncomputable def combined_threshold (img : Image) :
    Except ThreshErr (BinMask × BinMask × BinMask × BinMask × BinMask) := do
  let a ← abs_threshold img ("x") (20, 100)
  let m ← mag_threshold img 3 (30, 100)
  let d ← dir_threshold img 3 ((7 : ℝ)/10, (13 : ℝ)/10)
  let h ← hls_threshold img (170, 255)
  return (combineMasks a m d h, a, m, d, h)

/-- 3×3 test image with columns of uniform gray value `0, 0, 200`
(all three BGR channels equal): Sobel-x is `800` on the middle column and
`0` elsewhere, Sobel-y is `0` everywhere. -/
def wimg : Image := ⟨3, 3, 3, fun _ x _ => if x = 2 then 200 else 0⟩

/-- 2×2 all-red image (`BGR = (0, 0, 255)`): grayscale is the uniform
value 76, the saturation channel is 255 at every pixel. -/
def redimg : Image := ⟨2, 2, 3, fun _ _ c => if c = 2 then 255 else 0⟩

/-- 2×2 all-black image: uniform grayscale 0. -/
def blackimg : Image := ⟨2, 2, 3, fun _ _ _ => 0⟩

/-- A 2×2 image with only 2 channels. -/
def img2ch : Image := ⟨2, 2, 2, fun _ _ _ => 0⟩

/-- The abs mask produced inside `combined_threshold wimg`. -/
def wA : BinMask := absMaskFn wimg true (20, 100)

/-- The magnitude mask produced inside `combined_threshold wimg`. -/
noncomputable def wM : BinMask := magMaskFn wimg 3 (30, 100)

/-- The direction mask produced inside `combined_threshold wimg`. -/
noncomputable def wD : BinMask := dirMaskFn wimg 3 ((7 : ℝ)/10, (13 : ℝ)/10)

/-- The saturation mask produced inside `combined_threshold wimg`. -/
def wH : BinMask := hlsMaskFn wimg (170, 255)

/-- The full tuple returned by `combined_threshold wimg`. -/
noncomputable def wT : BinMask × BinMask × BinMask × BinMask × BinMask :=
  (combineMasks wA wM wD wH, wA, wM, wD, wH)

lemma mem_coordList {hgt wdt : ℕ} {p : ℕ × ℕ} :
    p ∈ coordList hgt wdt ↔ p.1 < hgt ∧ p.2 < wdt := by
  cases p with
  | mk y x =>
    simp only [coordList, List.mem_flatMap, List.mem_map, List.mem_range, Prod.mk.injEq]
    constructor
    · rintro ⟨a, ha, b, hb, rfl, rfl⟩
      exact ⟨ha, hb⟩
    · rintro ⟨hy, hx⟩
      exact ⟨y, hy, x, hx, rfl, rfl⟩

lemma le_foldr_max {α : Type} [LinearOrder α] {l : List α} {a : α} (z : α)
    (h : a ∈ l) : a ≤ l.foldr max z := by
  induction l with
  | nil => cases h
  | cons b t ih =>
    rcases List.mem_cons.mp h with rfl | hmem
    · exact le_max_left _ _
    · exact le_trans (ih hmem) (le_max_right _ _)

lemma foldr_max_eq_self {α : Type} [LinearOrder α] {l : List α} {z : α}
    (h : ∀ a ∈ l, a ≤ z) : l.foldr max z = z := by
  induction l with
  | nil => rfl
  | cons b t ih =>
    have hb := h b (List.mem_cons_self b t)
    have ht := ih (fun a ha => h a (List.mem_cons_of_mem _ ha))
    simp only [List.foldr_cons, ht, max_eq_right hb]

lemma le_fieldMax {α : Type} [LinearOrder α] (z : α) {hgt wdt : ℕ} (f : ℕ → ℕ → α)
    {y x : ℕ} (hy : y < hgt) (hx : x < wdt) : f y x ≤ fieldMax z hgt wdt f :=
  le_foldr_max z (List.mem_map.mpr ⟨(y, x), mem_coordList.mpr ⟨hy, hx⟩, rfl⟩)

lemma fieldMax_eq_iff_le {α : Type} [LinearOrder α] {z : α} {hgt wdt : ℕ}
    {f : ℕ → ℕ → α} :
    fieldMax z hgt wdt f = z ↔ ∀ y x, y < hgt → x < wdt → f y x ≤ z := by
  constructor
  · intro hmax y x hy hx
    exact hmax ▸ le_fieldMax z f hy hx
  · intro hle
    refine foldr_max_eq_self ?_
    intro a ha
    rcases List.mem_map.mp ha with ⟨p, hp, rfl⟩
    exact hle p.1 p.2 (mem_coordList.mp hp).1 (mem_coordList.mp hp).2

lemma ite_eq_zero_or_one {p : Prop} [Decidable p] :
    (if p then (1 : ℕ) else 0) = 0 ∨ (if p then (1 : ℕ) else 0) = 1 := by
  split_ifs <;> simp

lemma abs_ok_inv {img : Image} {orient : String} {t : ℕ × ℕ} {m : BinMask}
    (h : abs_threshold img orient t = .ok m) :
    img.channels = 3 ∧ (orient = "x" ∨ orient = "y") ∧
      absFieldMax img (orient == "x") ≠ 0 ∧ m = absMaskFn img (orient == "x") t := by
  unfold abs_threshold at h
  split_ifs at h with h1 h2 h3
  exact ⟨not_not.mp h1, h2, h3, (Except.ok.inj h).symm⟩

lemma mag_ok_inv {img : Image} {k : ℕ} {t : ℕ × ℕ} {m : BinMask}
    (h : mag_threshold img k t = .ok m) :
    img.channels = 3 ∧ gradmagMax img k ≠ 0 ∧ m = magMaskFn img k t := by
  unfold mag_threshold at h
  split_ifs at h with h1 h2
  exact ⟨not_not.mp h1, h2, (Except.ok.inj h).symm⟩

lemma dir_ok_inv {img : Image} {k : ℕ} {t : ℝ × ℝ} {m : BinMask}
    (h : dir_threshold img k t = .ok m) :
    img.channels = 3 ∧ m = dirMaskFn img k t := by
  unfold dir_threshold at h
  split_ifs at h with h1
  exact ⟨not_not.mp h1, (Except.ok.inj h).symm⟩

lemma hls_ok_inv {img : Image} {t : ℕ × ℕ} {m : BinMask}
    (h : hls_threshold img t = .ok m) :
    img.channels = 3 ∧ m = hlsMaskFn img t := by
  unfold hls_threshold at h
  split_ifs at h with h1
  exact ⟨not_not.mp h1, (Except.ok.inj h).symm⟩

lemma combined_ok_inv {img : Image}
    {t : BinMask × BinMask × BinMask × BinMask × BinMask}
    (h : combined_threshold img = .ok t) :
    abs_threshold img ("x") (20, 100) = .ok t.2.1 ∧
    mag_threshold img 3 (30, 100) = .ok t.2.2.1 ∧
    dir_threshold img 3 ((7 : ℝ)/10, (13 : ℝ)/10) = .ok t.2.2.2.1 ∧
    hls_threshold img (170, 255) = .ok t.2.2.2.2 ∧
    t.1 = combineMasks t.2.1 t.2.2.1 t.2.2.2.1 t.2.2.2.2 := by
  unfold combined_threshold at h
  cases habs : abs_threshold img ("x") (20, 100) with
  | error e => rw [habs] at h; simp [Bind.bind, Except.bind] at h
  | ok a =>
    rw [habs] at h
    simp only [Bind.bind, Except.bind] at h
    cases hmag : mag_threshold img 3 (30, 100) with
    | error e => rw [hmag] at h; simp at h
    | ok m =>
      rw [hmag] at h
      simp only at h
      cases hdir : dir_threshold img 3 ((7 : ℝ)/10, (13 : ℝ)/10) with
      | error e => rw [hdir] at h; simp at h
      | ok d =>
        rw [hdir] at h
        simp only at h
        cases hhls : hls_threshold img (170, 255) with
        | error e => rw [hhls] at h; simp at h
        | ok s =>
          rw [hhls] at h
          simp only [Pure.pure, Except.pure] at h
          injection h with h2
          subst h2
          exact ⟨rfl, rfl, rfl, rfl, rfl⟩

lemma reflect101_lt {n : ℕ} (hn : 0 < n) (i : ℤ) : reflect101 n i < n := by
  unfold reflect101
  split_ifs <;> omega

lemma sobel3_const {g : ℕ → ℕ → ℕ} {hgt wdt : ℕ} {c : ℕ}
    (hg : ∀ y x, y < hgt → x < wdt → g y x = c)
    (hh : 0 < hgt) (hw : 0 < wdt) (ax : Bool) (y x : ℕ) :
    sobel g hgt wdt 3 ax y x = 0 := by
  have hs : ∀ a b : ℤ, g (reflect101 hgt a) (reflect101 wdt b) = c :=
    fun a b => hg _ _ (reflect101_lt hh a) (reflect101_lt hw b)
  have h3 : List.range 3 = [0, 1, 2] := rfl
  have hsm : sobelSmooth 3 = [1, 2, 1] := rfl
  have hdv : sobelDeriv 3 = [-1, 0, 1] := rfl
  cases ax <;>
    simp only [sobel, h3, hsm, hdv, List.map_cons, List.map_nil, List.sum_cons,
      List.sum_nil, List.getD_cons_zero, List.getD_cons_succ, hs,
      Bool.false_eq_true, if_true, if_false, ite_true, ite_false] <;>
    ring

lemma atan2nn_nonneg {b a : ℝ} (hb : 0 ≤ b) (ha : 0 ≤ a) : 0 ≤ atan2nn b a := by
  unfold atan2nn
  split_ifs
  · exact le_refl 0
  · linarith [Real.pi_pos]
  · calc (0 : ℝ) = Real.arctan 0 := Real.arctan_zero.symm
      _ ≤ Real.arctan (b / a) :=
        Real.arctan_strictMono.monotone (div_nonneg hb ha)

lemma atan2nn_le_pi_div_two (b a : ℝ) : atan2nn b a ≤ Real.pi / 2 := by
  unfold atan2nn
  split_ifs
  · linarith [Real.pi_pos]
  · exact le_refl _
  · exact (Real.arctan_lt_pi_div_two _).le

lemma atan2nn_zero_zero : atan2nn 0 0 = 0 := by
  unfold atan2nn
  rw [if_pos rfl, if_pos rfl]

lemma angleAt_nonneg (img : Image) (k y x : ℕ) : 0 ≤ angleAt img k y x :=
  atan2nn_nonneg (abs_nonneg _) (abs_nonneg _)

lemma angleAt_le (img : Image) (k y x : ℕ) : angleAt img k y x ≤ Real.pi / 2 :=
  atan2nn_le_pi_div_two _ _

lemma gradmag_nonneg (img : Image) (k y x : ℕ) : 0 ≤ gradmag img k y x :=
  Real.sqrt_nonneg _

lemma gradmag_wimg_01 : gradmag wimg 3 0 1 = 800 := by
  have hx : sobelX wimg 3 0 1 = 800 := by decide
  have hy : sobelY wimg 3 0 1 = 0 := by decide
  simp only [gradmag, hx, hy]
  rw [show (((800 : ℤ) : ℝ) ^ 2 + ((0 : ℤ) : ℝ) ^ 2) = (800 : ℝ) ^ 2 by push_cast; ring]
  exact Real.sqrt_sq (by norm_num)

lemma gradmagMax_wimg_pos : (0 : ℝ) < gradmagMax wimg 3 := by
  have h1 : gradmag wimg 3 0 1 ≤ gradmagMax wimg 3 :=
    le_fieldMax 0 _ (by decide) (by decide)
  rw [gradmag_wimg_01] at h1
  linarith

lemma habs_wimg (t : ℕ × ℕ) :
    abs_threshold wimg ("x") t = .ok (absMaskFn wimg true t) := rfl

lemma hmag_wimg (t : ℕ × ℕ) :
    mag_threshold wimg 3 t = .ok (magMaskFn wimg 3 t) := by
  unfold mag_threshold
  rw [if_neg (by decide), if_neg (ne_of_gt gradmagMax_wimg_pos)]

lemma hdir_wimg (t : ℝ × ℝ) :
    dir_threshold wimg 3 t = .ok (dirMaskFn wimg 3 t) := rfl

lemma hhls_wimg (t : ℕ × ℕ) :
    hls_threshold wimg t = .ok (hlsMaskFn wimg t) := rfl

lemma combined_wimg : combined_threshold wimg = .ok wT := by
  unfold combined_threshold wT wA wM wD wH
  rw [habs_wimg, hmag_wimg, hdir_wimg, hhls_wimg]
  simp [Bind.bind, Except.bind, Pure.pure, Except.pure]

lemma combinePix_or {a h : ℕ} (ha : a = 0 ∨ a = 1) (hh : h = 0 ∨ h = 1) (m d : ℕ) :
    combinePix a m d h = if a = 1 ∨ h = 1 then 1 else 0 := by
  rcases ha with rfl | rfl <;> rcases hh with rfl | rfl <;>
    by_cases hmd : m = 1 ∧ d = 1 <;> simp only [combinePix, hmd, if_pos, if_neg,
      ite_true, ite_false, not_false_iff] <;> decide

lemma absMaskFn_val_or (img : Image) (ax : Bool) (t : ℕ × ℕ) (y x : ℕ) :
    (absMaskFn img ax t).val y x = 0 ∨ (absMaskFn img ax t).val y x = 1 :=
  ite_eq_zero_or_one

lemma hlsMaskFn_val_or (img : Image) (t : ℕ × ℕ) (y x : ℕ) :
    (hlsMaskFn img t).val y x = 0 ∨ (hlsMaskFn img t).val y x = 1 :=
  ite_eq_zero_or_one

/-- Claim C1: because the bitwise OR binds tighter than `==` in the
reference combination expression, the combined mask produced by
`combined_threshold` equals, at every pixel, the pixelwise OR of the
abs-gradient mask and the saturation mask; the magnitude and direction
masks make no contribution (the right-hand side does not mention them). -/
theorem combined_mask_is_abs_or_sat (img : Image)
    (t : BinMask × BinMask × BinMask × BinMask × BinMask)
    (h : combined_threshold img = .ok t) (y x : ℕ) :
    t.1.val y x = if t.2.1.val y x = 1 ∨ t.2.2.2.2.val y x = 1 then 1 else 0 := by
  obtain ⟨habs, hmag, hdir, hhls, hcomb⟩ := combined_ok_inv h
  obtain ⟨h3, ho, hmax, ha⟩ := abs_ok_inv habs
  obtain ⟨h3h, hhm⟩ := hls_ok_inv hhls
  rw [hcomb]
  show combinePix (t.2.1.val y x) (t.2.2.1.val y x) (t.2.2.2.1.val y x)
      (t.2.2.2.2.val y x) = _
  exact combinePix_or (ha ▸ absMaskFn_val_or img _ _ y x)
    (hhm ▸ hlsMaskFn_val_or img _ y x) _ _

/-- Witness for C1 at the concrete 3×3 image `wimg`. -/
theorem combined_mask_is_abs_or_sat_check :
    wT.1.val 0 0 = if wT.2.1.val 0 0 = 1 ∨ wT.2.2.2.2.val 0 0 = 1 then 1 else 0 :=
  combined_mask_is_abs_or_sat wimg wT combined_wimg 0 0

/-- Claim C8: `combined_threshold` invokes the four classifiers with
exactly the documented defaults: abs-gradient along x with (20, 100),
magnitude with kernel 3 and (30, 100), direction with kernel 3 and
(0.7, 1.3), saturation with (170, 255); the combined mask is the fusion
of exactly these four. -/
theorem combined_uses_documented_defaults (img : Image)
    (t : BinMask × BinMask × BinMask × BinMask × BinMask)
    (h : combined_threshold img = .ok t) :
    abs_threshold img ("x") (20, 100) = .ok t.2.1 ∧
    mag_threshold img 3 (30, 100) = .ok t.2.2.1 ∧
    dir_threshold img 3 ((7 : ℝ)/10, (13 : ℝ)/10) = .ok t.2.2.2.1 ∧
    hls_threshold img (170, 255) = .ok t.2.2.2.2 ∧
    t.1 = combineMasks t.2.1 t.2.2.1 t.2.2.2.1 t.2.2.2.2 :=
  combined_ok_inv h

/-- Witness for C8 at the concrete 3×3 image `wimg`. -/
theorem combined_uses_documented_defaults_check :
    abs_threshold wimg ("x") (20, 100) = .ok wT.2.1 :=
  (combined_uses_documented_defaults wimg wT combined_wimg).1

/-- Claim C3: the saturation classifier sets a pixel iff its saturation
value is strictly greater than `thresh.low` and at most `thresh.high`;
in particular a pixel at exactly `thresh.low` is not set, and a pixel at
exactly `thresh.high` is set whenever the range is nondegenerate. -/
theorem saturation_boundary_policy (img : Image) (lo hi : ℕ) (m : BinMask)
    (h : hls_threshold img (lo, hi) = .ok m) (y x : ℕ) :
    (m.val y x = 1 ↔ lo < sChannelAt img y x ∧ sChannelAt img y x ≤ hi) ∧
    (sChannelAt img y x = lo → m.val y x = 0) ∧
    (lo < hi → sChannelAt img y x = hi → m.val y x = 1) := by
  obtain ⟨h3, rfl⟩ := hls_ok_inv h
  refine ⟨?_, ?_, ?_⟩
  · show (if lo < sChannelAt img y x ∧ sChannelAt img y x ≤ hi then 1 else 0) = 1 ↔ _
    split_ifs with hc <;> simp [hc]
  · intro hs
    show (if lo < sChannelAt img y x ∧ sChannelAt img y x ≤ hi then 1 else 0) = 0
    rw [hs, if_neg (by omega)]
  · intro hlt hs
    show (if lo < sChannelAt img y x ∧ sChannelAt img y x ≤ hi then 1 else 0) = 1
    rw [hs, if_pos ⟨hlt, le_refl hi⟩]

/-- Witness for C3: the all-red image has saturation exactly 255, the
upper bound of the default range (100, 255), and the pixel is set. -/
theorem saturation_boundary_policy_check :
    (hlsMaskFn redimg (100, 255)).val 0 0 = 1 :=
  (saturation_boundary_policy redimg 100 255 _ rfl 0 0).2.2 (by decide) (by decide)

/-- Claim C10 (implicit): calling `abs_threshold` with an `orient` other
than x or y can never return a mask; with a valid 3-channel image it
raises the `UnboundLocalError` of the never-assigned derivative field. -/
theorem bad_orient_raises (img : Image) (orient : String) (t : ℕ × ℕ)
    (hx : orient ≠ "x") (hy : orient ≠ "y") :
    (∀ m, abs_threshold img orient t ≠ .ok m) ∧
    (img.channels = 3 → abs_threshold img orient t = .error .unboundLocal) := by
  constructor
  · intro m hm
    obtain ⟨h3, ho, hmax, ha⟩ := abs_ok_inv hm
    rcases ho with h | h
    · exact hx h
    · exact hy h
  · intro h3
    unfold abs_threshold
    rw [if_neg (by simp [h3]), if_neg (not_or.mpr ⟨hx, hy⟩)]

/-- Witness for C10 with the unrecognised orient value q. -/
theorem bad_orient_raises_check :
    abs_threshold redimg ("q") (20, 100) = .error ThreshErr.unboundLocal :=
  (bad_orient_raises redimg ("q") (20, 100) (by decide) (by decide)).2 rfl

/-- Claim C7: on an image whose channel count is not 3, the color-space
conversion contract makes every classifier, and the combined pipeline,
fail immediately with `InvalidInputError` instead of returning a mask. -/
theorem wrong_channels_invalid_input (img : Image) (orient : String)
    (k : ℕ) (t1 t2 : ℕ × ℕ) (t3 : ℝ × ℝ) (t4 : ℕ × ℕ)
    (h : img.channels ≠ 3) :
    abs_threshold img orient t1 = .error .invalidInput ∧
    mag_threshold img k t2 = .error .invalidInput ∧
    dir_threshold img k t3 = .error .invalidInput ∧
    hls_threshold img t4 = .error .invalidInput ∧
    combined_threshold img = .error .invalidInput := by
  have habs : abs_threshold img orient t1 = .error .invalidInput := by
    unfold abs_threshold
    rw [if_pos h]
  have habs2 : abs_threshold img ("x") (20, 100) = .error .invalidInput := by
    unfold abs_threshold
    rw [if_pos h]
  refine ⟨habs, ?_, ?_, ?_, ?_⟩
  · unfold mag_threshold
    rw [if_pos h]
  · unfold dir_threshold
    rw [if_pos h]
  · unfold hls_threshold
    rw [if_pos h]
  · unfold combined_threshold
    rw [habs2]
    simp [Bind.bind, Except.bind]

/-- Witness for C7 on a 2-channel image. -/
theorem wrong_channels_invalid_input_check :
    abs_threshold img2ch ("q") (20, 100) = .error ThreshErr.invalidInput :=
  (wrong_channels_invalid_input img2ch ("q") 3 (20, 100) (30, 100)
    ((0 : ℝ), 1) (170, 255) (by decide)).1

lemma orient_beq_of_bool (ax : Bool) : ((if ax then "x" else "y") == "x") = ax := by
  cases ax <;> decide

/-- Claim C4: for the axis-gradient, magnitude and direction classifiers,
a pixel whose scaled (resp. angle) value equals exactly either bound of
the threshold range is set to 1 in the returned mask, for every input and
every threshold range (ranges being ordered pairs with low ≤ high). -/
theorem gradient_boundary_inclusive (img : Image) :
    (∀ (ax : Bool) (lo hi : ℕ) (m : BinMask) (y x : ℕ), lo ≤ hi →
       abs_threshold img (if ax then "x" else "y") (lo, hi) = .ok m →
       (absScaled img ax y x = lo ∨ absScaled img ax y x = hi) → m.val y x = 1) ∧
    (∀ (k lo hi : ℕ) (m : BinMask) (y x : ℕ), lo ≤ hi →
       mag_threshold img k (lo, hi) = .ok m →
       (magScaled img k y x = lo ∨ magScaled img k y x = hi) → m.val y x = 1) ∧
    (∀ (k : ℕ) (lo hi : ℝ) (m : BinMask) (y x : ℕ), lo ≤ hi →
       dir_threshold img k (lo, hi) = .ok m →
       (angleAt img k y x = lo ∨ angleAt img k y x = hi) → m.val y x = 1) := by
  refine ⟨?_, ?_, ?_⟩
  · intro ax lo hi m y x hlohi hok hs
    obtain ⟨h3, ho, hmax, hm⟩ := abs_ok_inv hok
    rw [orient_beq_of_bool ax] at hm
    rw [hm]
    show (if lo ≤ absScaled img ax y x ∧ absScaled img ax y x ≤ hi then 1 else 0) = 1
    rcases hs with hs | hs <;> rw [hs]
    · exact if_pos ⟨le_refl lo, hlohi⟩
    · exact if_pos ⟨hlohi, le_refl hi⟩
  · intro k lo hi m y x hlohi hok hs
    obtain ⟨h3, hmax, hm⟩ := mag_ok_inv hok
    rw [hm]
    show (if lo ≤ magScaled img k y x ∧ magScaled img k y x ≤ hi then 1 else 0) = 1
    rcases hs with hs | hs <;> rw [hs]
    · exact if_pos ⟨le_refl lo, hlohi⟩
    · exact if_pos ⟨hlohi, le_refl hi⟩
  · intro k lo hi m y x hlohi hok hs
    obtain ⟨h3, hm⟩ := dir_ok_inv hok
    rw [hm]
    show (if lo ≤ angleAt img k y x ∧ angleAt img k y x ≤ hi then 1 else 0) = 1
    rcases hs with hs | hs <;> rw [hs]
    · exact if_pos ⟨le_refl lo, hlohi⟩
    · exact if_pos ⟨hlohi, le_refl hi⟩

/-- Witness for C4: on `wimg` the scaled abs-gradient at the middle
column is exactly 255, the upper bound of the range (20, 255), and the
pixel is set. -/
theorem gradient_boundary_inclusive_check :
    (absMaskFn wimg true (20, 255)).val 0 1 = 1 :=
  (gradient_boundary_inclusive wimg).1 true 20 255 _ 0 1 (by decide) rfl
    (Or.inr (by decide))

/-- Claim C5: the divide-by-max rescale of the abs-gradient and magnitude
classifiers divides by zero exactly when the field's maximum is 0, which
happens exactly on a perfectly flat (all-zero) field; the result there is
undefined in the reference (modelled as the `divideByZero` error), and on
every field with nonzero maximum the division is safe and a mask is
returned. -/
theorem rescale_divide_by_zero (img : Image) (ax : Bool) (k : ℕ)
    (t1 t2 : ℕ × ℕ) (h3 : img.channels = 3) :
    (abs_threshold img (if ax then "x" else "y") t1 = .error .divideByZero ↔
       absFieldMax img ax = 0) ∧
    (absFieldMax img ax = 0 ↔
       ∀ y x, y < img.height → x < img.width → absField img ax y x = 0) ∧
    (absFieldMax img ax ≠ 0 →
       abs_threshold img (if ax then "x" else "y") t1 = .ok (absMaskFn img ax t1)) ∧
    (mag_threshold img k t2 = .error .divideByZero ↔ gradmagMax img k = 0) ∧
    (gradmagMax img k = 0 ↔
       ∀ y x, y < img.height → x < img.width → gradmag img k y x = 0) ∧
    (gradmagMax img k ≠ 0 → mag_threshold img k t2 = .ok (magMaskFn img k t2)) := by
  have hor : ((if ax then "x" else "y") = "x" ∨ (if ax then "x" else "y") = "y") := by
    cases ax
    · exact Or.inr rfl
    · exact Or.inl rfl
  have habsu : ∀ r : Except ThreshErr BinMask,
      abs_threshold img (if ax then "x" else "y") t1 = r ↔
      (if absFieldMax img ax = 0 then Except.error ThreshErr.divideByZero
        else Except.ok (absMaskFn img ax t1)) = r := by
    intro r
    unfold abs_threshold
    rw [if_neg (by simp [h3]), if_pos hor, orient_beq_of_bool ax]
  have hmagu : ∀ r : Except ThreshErr BinMask,
      mag_threshold img k t2 = r ↔
      (if gradmagMax img k = 0 then Except.error ThreshErr.divideByZero
        else Except.ok (magMaskFn img k t2)) = r := by
    intro r
    unfold mag_threshold
    rw [if_neg (by simp [h3])]
  refine ⟨?_, ?_, ?_, ?_, ?_, ?_⟩
  · rw [habsu]
    split_ifs with hz <;> simp [hz]
  · constructor
    · intro h0 y x hy hx
      exact le_antisymm (h0 ▸ le_fieldMax 0 (absField img ax) hy hx) (abs_nonneg _)
    · intro hall
      exact fieldMax_eq_iff_le.mpr (fun y x hy hx => le_of_eq (hall y x hy hx))
  · intro hz
    rw [habsu, if_neg hz]
  · rw [hmagu]
    split_ifs with hz <;> simp [hz]
  · constructor
    · intro h0 y x hy hx
      exact le_antisymm (h0 ▸ le_fieldMax 0 (gradmag img k) hy hx)
        (gradmag_nonneg img k y x)
    · intro hall
      exact fieldMax_eq_iff_le.mpr (fun y x hy hx => le_of_eq (hall y x hy hx))
  · intro hz
    rw [hmagu, if_neg hz]

/-- Witness for C5 at `wimg`, whose gradient fields have nonzero maxima. -/
theorem rescale_divide_by_zero_check :
    abs_threshold wimg ("x") (20, 100) = Except.error ThreshErr.divideByZero ↔
      absFieldMax wimg true = 0 :=
  (rescale_divide_by_zero wimg true 3 (20, 100) (30, 100) rfl).1

/-- Claim C6: every mask in the tuple returned by `combined_threshold`
has the input image's spatial dimensions, and every pixel value of every
one of the five masks is exactly 0 or 1. -/
theorem masks_binary_same_dims (img : Image)
    (t : BinMask × BinMask × BinMask × BinMask × BinMask)
    (h : combined_threshold img = .ok t) :
    (t.1.height = img.height ∧ t.1.width = img.width ∧
     t.2.1.height = img.height ∧ t.2.1.width = img.width ∧
     t.2.2.1.height = img.height ∧ t.2.2.1.width = img.width ∧
     t.2.2.2.1.height = img.height ∧ t.2.2.2.1.width = img.width ∧
     t.2.2.2.2.height = img.height ∧ t.2.2.2.2.width = img.width) ∧
    (∀ y x, (t.1.val y x = 0 ∨ t.1.val y x = 1) ∧
       (t.2.1.val y x = 0 ∨ t.2.1.val y x = 1) ∧
       (t.2.2.1.val y x = 0 ∨ t.2.2.1.val y x = 1) ∧
       (t.2.2.2.1.val y x = 0 ∨ t.2.2.2.1.val y x = 1) ∧
       (t.2.2.2.2.val y x = 0 ∨ t.2.2.2.2.val y x = 1)) := by
  obtain ⟨habs, hmag, hdir, hhls, hcomb⟩ := combined_ok_inv h
  obtain ⟨h3, ho, hmax, ha⟩ := abs_ok_inv habs
  obtain ⟨h3m, hmaxm, hmm⟩ := mag_ok_inv hmag
  obtain ⟨h3d, hd⟩ := dir_ok_inv hdir
  obtain ⟨h3h, hh⟩ := hls_ok_inv hhls
  rw [show (("x" : String) == "x") = true from rfl] at ha
  constructor
  · rw [hcomb, ha, hmm, hd, hh]
    exact ⟨rfl, rfl, rfl, rfl, rfl, rfl, rfl, rfl, rfl, rfl⟩
  · intro y x
    refine ⟨?_, ?_, ?_, ?_, ?_⟩
    · rw [hcomb]
      show (combinePix _ _ _ _ = 0 ∨ combinePix _ _ _ _ = 1)
      unfold combinePix
      exact ite_eq_zero_or_one
    · rw [ha]; exact ite_eq_zero_or_one
    · rw [hmm]; exact ite_eq_zero_or_one
    · rw [hd]; exact ite_eq_zero_or_one
    · rw [hh]; exact ite_eq_zero_or_one

/-- Witness for C6 at `wimg`: the five pixel values at (0, 0) are binary. -/
theorem masks_binary_same_dims_check :
    (wT.1.val 0 0 = 0 ∨ wT.1.val 0 0 = 1) ∧
    (wT.2.1.val 0 0 = 0 ∨ wT.2.1.val 0 0 = 1) ∧
    (wT.2.2.1.val 0 0 = 0 ∨ wT.2.2.1.val 0 0 = 1) ∧
    (wT.2.2.2.1.val 0 0 = 0 ∨ wT.2.2.2.1.val 0 0 = 1) ∧
    (wT.2.2.2.2.val 0 0 = 0 ∨ wT.2.2.2.2.val 0 0 = 1) :=
  (masks_binary_same_dims wimg wT combined_wimg).2 0 0

/-- Claim C9: the direction classifier works directly on the radian
angle field `arctan2(|dy|, |dx|)`, whose value lies in [0, π/2] at every
pixel; with the default threshold range (0, π/2), both bounds inclusive,
the mask is all-ones for every image — in particular a zero-gradient
pixel (angle `arctan2(0, 0) = 0`) is set. -/
theorem direction_default_all_ones (img : Image) (k : ℕ) :
    (∀ y x, 0 ≤ angleAt img k y x ∧ angleAt img k y x ≤ Real.pi / 2) ∧
    (∀ y x, (dirMaskFn img k (0, Real.pi / 2)).val y x = 1) ∧
    (img.channels = 3 →
      dir_threshold img k (0, Real.pi / 2) = .ok (dirMaskFn img k (0, Real.pi / 2))) := by
  refine ⟨fun y x => ⟨angleAt_nonneg img k y x, angleAt_le img k y x⟩, ?_, ?_⟩
  · intro y x
    show (if 0 ≤ angleAt img k y x ∧ angleAt img k y x ≤ Real.pi / 2
        then 1 else 0) = 1
    exact if_pos ⟨angleAt_nonneg img k y x, angleAt_le img k y x⟩
  · intro h3
    unfold dir_threshold
    rw [if_neg (by simp [h3])]

/-- Witness for C9 at `wimg` with kernel 3. -/
theorem direction_default_all_ones_check :
    dir_threshold wimg 3 (0, Real.pi / 2) = .ok (dirMaskFn wimg 3 (0, Real.pi / 2)) ∧
    (dirMaskFn wimg 3 (0, Real.pi / 2)).val 0 0 = 1 :=
  ⟨(direction_default_all_ones wimg 3).2.2 rfl,
   (direction_default_all_ones wimg 3).2.1 0 0⟩

/-- Counterexample to C2: the all-red image has identical grayscale
intensity 76 at every pixel, yet the saturation classifier (at its
default range (100, 255)) returns a mask with value 1 — not the all-zero
mask: the saturation check depends on color, not on grayscale intensity. -/
theorem uniform_gray_not_all_zero_cex :
    (graySt redimg 0 0 = 76 ∧ graySt redimg 0 1 = 76 ∧
     graySt redimg 1 0 = 76 ∧ graySt redimg 1 1 = 76) ∧
    hls_threshold redimg (100, 255) = .ok (hlsMaskFn redimg (100, 255)) ∧
    (hlsMaskFn redimg (100, 255)).val 0 0 = 1 :=
  ⟨by decide, rfl, by decide⟩

/-- Claim C2 (amended): for an input whose grayscale intensity is the
same at every pixel, both Sobel derivative fields vanish on the grid; the
direction mask at the pipeline thresholds (0.7, 1.3) is all-zero, while
the abs-gradient and magnitude classifiers hit the divide-by-zero of the
rescale instead of returning a mask (and the saturation mask depends on
the colors, not only on the grayscale intensity). -/
theorem uniform_gray_flat_field (img : Image) (c : ℕ)
    (h3 : img.channels = 3)
    (hu : ∀ y x, y < img.height → x < img.width → graySt img y x = c) :
    (∀ y x, y < img.height → x < img.width →
        sobelX img 3 y x = 0 ∧ sobelY img 3 y x = 0 ∧
        (dirMaskFn img 3 ((7 : ℝ)/10, (13 : ℝ)/10)).val y x = 0) ∧
    abs_threshold img ("x") (20, 100) = .error .divideByZero ∧
    abs_threshold img ("y") (20, 100) = .error .divideByZero ∧
    mag_threshold img 3 (30, 100) = .error .divideByZero := by
  have hzero : ∀ (ax : Bool) (y x : ℕ), y < img.height → x < img.width →
      sobel (graySt img) img.height img.width 3 ax y x = 0 := by
    intro ax y x hy hx
    exact sobel3_const hu (Nat.lt_of_le_of_lt (Nat.zero_le y) hy)
      (Nat.lt_of_le_of_lt (Nat.zero_le x) hx) ax y x
  have habs0 : ∀ ax : Bool, absFieldMax img ax = 0 := by
    intro ax
    refine fieldMax_eq_iff_le.mpr ?_
    intro y x hy hx
    refine le_of_eq ?_
    cases ax <;>
      simp [absField, sobelX, sobelY, hzero true y x hy hx, hzero false y x hy hx]
  have hmag0 : gradmagMax img 3 = 0 := by
    refine fieldMax_eq_iff_le.mpr ?_
    intro y x hy hx
    refine le_of_eq ?_
    simp [gradmag, sobelX, sobelY, hzero true y x hy hx, hzero false y x hy hx]
  have habse : ∀ o : String, o = "x" ∨ o = "y" →
      abs_threshold img o (20, 100) = .error .divideByZero := by
    intro o ho
    unfold abs_threshold
    rw [if_neg (by simp [h3]), if_pos ho, if_pos (habs0 _)]
  refine ⟨?_, habse _ (Or.inl rfl), habse _ (Or.inr rfl), ?_⟩
  · intro y x hy hx
    have hx0 : sobelX img 3 y x = 0 := hzero true y x hy hx
    have hy0 : sobelY img 3 y x = 0 := hzero false y x hy hx
    refine ⟨hx0, hy0, ?_⟩
    have hang : angleAt img 3 y x = 0 := by
      simp [angleAt, hx0, hy0, atan2nn_zero_zero]
    show (if (7 : ℝ)/10 ≤ angleAt img 3 y x ∧ angleAt img 3 y x ≤ (13 : ℝ)/10
        then 1 else 0) = 0
    rw [hang, if_neg (by norm_num)]
  · unfold mag_threshold
    rw [if_neg (by simp [h3]), if_pos hmag0]

/-- Witness for the amended C2 at the all-black image. -/
theorem uniform_gray_flat_field_check :
    abs_threshold blackimg ("x") (20, 100) = .error ThreshErr.divideByZero :=
  (uniform_gray_flat_field blackimg 0 rfl
    (fun _ _ _ _ => by norm_num [graySt, blackimg])).2.1

end LaneLines
